import Mathlib

/-!
Shallow embedding of the polystream_parquetsave_4mkts repository:
order-book reconstruction (src/orderbook.py, src/models.py) and the
streaming parquet writer's queue/batch/lifecycle logic (src/parquet.py).

Modelling conventions:
* The book stores price/size as decimal strings. The paths that read
  them through `float(...)` (delta application) are modelled over
  rationals (`ℚ`), identifying a stored string with its numeric value;
  the accessors that compare the RAW strings (`OB.bb` / `OB.ba`) are
  modelled over a string-priced view with lexicographic `String` order,
  matching the Python comparison they actually perform.
* Python exceptions are modelled with `Except`/`Option`; a caught
  exception that leaves in-place mutations behind is modelled by
  returning the partially-updated state together with the error.
* Wall-clock reads (`datetime.now()`, `time.monotonic()`) are modelled
  as explicit `now`-arguments supplied by the caller (a time oracle).
* Thread interleavings are not modelled; each Python critical section
  (the handler lock, one writer-loop iteration) is one atomic step.
-/

namespace PolyStream

/-! ### Price levels (entries of the `bids` / `asks` lists of dicts) -/

/-- One price level: a `{"price": ..., "size": ...}` dict of the book,
with both fields read through `float(...)`. -/
structure Level where
  price : ℚ
  size : ℚ
deriving DecidableEq, Repr

/-- The list of prices present on one side of the book. -/
def prices (side : List Level) : List ℚ := side.map (·.price)

/-- The `for level in order_side: if float(level["price"]) == price:
level["size"] = str(size); break` loop of
`OrderBookHandler.update_price_level` (src/orderbook.py:114-119):
overwrite the size of the first level whose price matches, leaving
everything else in place; `none` when no level matches (`updated`
stays `False`). -/
def overwriteFirst : List Level → ℚ → ℚ → Option (List Level)
  | [], _, _ => none
  | l :: ls, price, size =>
    if l.price = price then some ({ l with size := size } :: ls)
    else (overwriteFirst ls price size).map (fun ls' => l :: ls')

/-- Model of `OrderBookHandler.update_price_level` (src/orderbook.py:106-123):
size 0 filters out every level at that price; otherwise overwrite the
first matching level's size, appending a fresh level when none matches. -/
def update_price_level (order_side : List Level) (price size : ℚ) : List Level :=
  if size = 0 then
    order_side.filter (fun l => decide (l.price ≠ price))
  else
    match overwriteFirst order_side price size with
    | some side' => side'
    | none => order_side ++ [⟨price, size⟩]

/-- A sequence of `update_price_level` applications to one side, in
order (the per-change loop of `process_price_change_message` restricted
to the changes that land on this side). -/
def applyDeltas (side : List Level) (changes : List (ℚ × ℚ)) : List Level :=
  changes.foldl (fun s c => update_price_level s c.1 c.2) side

/-! ### The `OB` dataclass (src/models.py:24-39) -/

/-- The `OB` dataclass holding one reconstructed book. -/
structure OB where
  token_id : String
  market : String
  asset_id : String
  last_update : ℚ
  bids : List Level
  asks : List Level
deriving Repr

/-! ### The stored string view of a level, for the `OB.bb` / `OB.ba`
accessors (src/models.py:33-39)

The book's levels are dicts whose `"price"` / `"size"` values are
strings: a full snapshot installs the feed's string-priced dicts
verbatim and `update_price_level` writes back `str(size)` and appends
`{"price": str(price), ...}` (src/orderbook.py:117,122).
`update_price_level` compares prices through `float(...)` — the ℚ
abstraction above — but `OB.bb` / `OB.ba` use
`max/min(side, key=lambda x: x["price"])` on the RAW strings, which
Python orders lexicographically by code point. Lean's `String` `<`
(Mathlib's linear order) is the same code-point lexicographic order,
so these accessors are modelled on a string-priced view. -/

/-- One stored price level: the raw dict with its string fields. -/
structure SLevel where
  price : String
  size : String
deriving DecidableEq, Repr

/-- String-level view of the `OB` dataclass (src/models.py:24-39):
the same book as `OB`, with its levels as stored. -/
structure OBS where
  token_id : String
  market : String
  asset_id : String
  bids : List SLevel
  asks : List SLevel
deriving Repr

/-- Python `max(levels, key=lambda x: x["price"])` (src/models.py:35):
first level whose raw price string is maximal in lexicographic
(code-point) order — there is no `float()` conversion here; `max`
raises `ValueError` on an empty sequence, modelled as `none`. -/
def maxByPrice : List SLevel → Option SLevel
  | [] => none
  | l :: ls => some (ls.foldl (fun acc x => if acc.price < x.price then x else acc) l)

/-- Python `min(levels, key=lambda x: x["price"])` (src/models.py:39):
first level whose raw price string is minimal in lexicographic order;
`none` models the `ValueError` on an empty sequence. -/
def minByPrice : List SLevel → Option SLevel
  | [] => none
  | l :: ls => some (ls.foldl (fun acc x => if x.price < acc.price then x else acc) l)

/-- Model of `OB.bb` (src/models.py:33-35): the stored price string of
the lexicographically-greatest-priced bid level; `none` models the
`ValueError` raised by `max` on an empty bid side. -/
def OBS.bb (ob : OBS) : Option String := (maxByPrice ob.bids).map (·.price)

/-- Model of `OB.ba` (src/models.py:37-39): the stored price string of
the lexicographically-least-priced ask level; `none` models the
`ValueError` raised by `min` on an empty ask side. -/
def OBS.ba (ob : OBS) : Option String := (minByPrice ob.asks).map (·.price)

/-- Split a character list at the first dot (decimal point). -/
def splitDot : List Char → List Char × Option (List Char)
  | [] => ([], none)
  | c :: cs =>
    if c = '.' then ([], some cs)
    else
      let r := splitDot cs
      (c :: r.1, r.2)

/-- Value of a list of ASCII digits as a natural number; `none` when a
non-digit occurs. -/
def digitsToNat : List Char → Option Nat
  | [] => some 0
  | c :: cs =>
    if c.isDigit then (digitsToNat cs).map (fun n => (c.toNat - 48) * 10 ^ cs.length + n)
    else none

/-- Numeric (Python `float`) value of a plain decimal string `"d…d"`
or `"d…d.d…d"` — the shapes `str(price)` and the feed produce for the
book's prices — as a pair (mantissa, scale) representing
mantissa / scale. -/
def decValue (s : String) : Option (Nat × Nat) :=
  match splitDot s.data with
  | (ip, none) => (digitsToNat ip).map (fun n => (n, 1))
  | (ip, some fp) =>
    match digitsToNat ip, digitsToNat fp with
    | some n, some f => some (n * 10 ^ fp.length + f, 10 ^ fp.length)
    | _, _ => none

/-- Strict numeric order of two decimal price strings: both parse and
the first value is smaller (compared by cross-multiplication). -/
def decLt (a b : String) : Prop :=
  ∃ pa pb, decValue a = some pa ∧ decValue b = some pb ∧ pa.1 * pb.2 < pb.1 * pa.2

/-! ### Inbound messages (decoded JSON payloads) -/

/-- One element of a `price_changes` list (a JSON dict). `none` fields
model missing keys (so `change["k"]` raises `KeyError`) or values whose
`float(...)` parse fails; `change.get("asset_id")` yields Python `None`
for a missing key, modelled by `none` comparing unequal to every
`some _`. -/
structure ChangeObj where
  asset_id : Option String := none
  side : Option String := none
  price : Option ℚ := none
  size : Option ℚ := none
deriving Repr

/-- A JSON dict message. `none` fields model missing keys. -/
structure MsgObj where
  event_type : Option String := none
  asset_id : Option String := none
  market : Option String := none
  bids : Option (List Level) := none
  asks : Option (List Level) := none
  price_changes : Option (List ChangeObj) := none
deriving Repr

/-- The mutable state of one `OrderBookHandler` instance that the
claims are about: the subscribed key and `current_orderbook`
(src/orderbook.py:12-14). Printing counters and the writer reference
are I/O plumbing outside the book state. -/
structure HandlerState where
  subscribed_asset_id : String
  current_orderbook : Option OB
deriving Repr

/-- Python `d["k"]`: the value, or a `KeyError`. -/
def getKey (o : Option β) : Except String β :=
  match o with
  | some v => .ok v
  | none => .error "KeyError"

/-- Model of `OrderBookHandler.process_full_book_message` (src/orderbook.py:50-67):
when the message's `asset_id` equals the subscribed key, build a fresh
`OB` from the message's fields and install it, discarding the previous
book entirely; otherwise do nothing. A missing key raises before the
assignment, leaving the state unchanged (the error is caught by
`process_message`). Writer enqueueing is I/O outside the book state. -/
def process_full_book_message (st : HandlerState) (d : MsgObj) (now : ℚ) :
    Except String HandlerState := do
  let aid ← getKey d.asset_id
  if aid = st.subscribed_asset_id then
    let market ← getKey d.market
    let bids ← getKey d.bids
    let asks ← getKey d.asks
    let ob : OB := { token_id := st.subscribed_asset_id, market := market,
                     asset_id := aid, last_update := now, bids := bids, asks := asks }
    pure { st with current_orderbook := some ob }
  else
    pure st

/-- One iteration of the `for change in price_changes` loop
(src/orderbook.py:82-93). An error carries the state at the raise
point (in-place mutations by earlier changes persist). A change whose
`asset_id` does not match is skipped; an unknown side string matches
neither `"buy"` nor `"sell"` and is a no-op; touching
`self.current_orderbook.bids` while the book is `None` raises
`AttributeError`. -/
def applyChange (st : HandlerState) (c : ChangeObj) :
    Except (HandlerState × String) HandlerState :=
  if c.asset_id = some st.subscribed_asset_id then
    match c.side with
    | none => .error (st, "KeyError: side")
    | some side =>
      match c.price with
      | none => .error (st, "KeyError/ValueError: price")
      | some price =>
        match c.size with
        | none => .error (st, "KeyError/ValueError: size")
        | some size =>
          if side.toLower = "buy" then
            match st.current_orderbook with
            | none => .error (st, "AttributeError: NoneType has no bids")
            | some ob =>
              let ob' : OB := { ob with bids := update_price_level ob.bids price size }
              .ok { st with current_orderbook := some ob' }
          else if side.toLower = "sell" then
            match st.current_orderbook with
            | none => .error (st, "AttributeError: NoneType has no asks")
            | some ob =>
              let ob' : OB := { ob with asks := update_price_level ob.asks price size }
              .ok { st with current_orderbook := some ob' }
          else
            .ok st
  else
    .ok st

/-- The whole `for change in price_changes` loop, stopping at the first
raised exception but keeping the mutations already applied. -/
def applyChanges (st : HandlerState) : List ChangeObj → HandlerState × Option String
  | [] => (st, none)
  | c :: cs =>
    match applyChange st c with
    | .ok st' => applyChanges st' cs
    | .error (st', e) => (st', some e)

/-- Model of `OrderBookHandler.process_price_change_message`
(src/orderbook.py:69-104): apply each change serially; if no exception
escaped the loop and a book exists, refresh `last_update`. Returns the
(possibly partially updated) state plus the escaped exception, if any. -/
def process_price_change_message (st : HandlerState) (d : MsgObj) (now : ℚ) :
    HandlerState × Option String :=
  let changes := d.price_changes.getD []
  match applyChanges st changes with
  | (st', some e) => (st', some e)
  | (st', none) =>
    match st'.current_orderbook with
    | some ob =>
      let ob' : OB := { ob with last_update := now }
      ({ st' with current_orderbook := some ob' }, none)
    | none => (st', none)

/-- The shape of one inbound frame after `json.loads`
(src/orderbook.py:22-43): empty / `PONG`-prefixed text, unparseable
text, a JSON list (of dict payloads), a JSON dict, or some other JSON
value (number, string, ...). -/
inductive Inbound where
  | keepalive : Inbound
  | malformed : Inbound
  | jlist : List MsgObj → Inbound
  | jobj : MsgObj → Inbound
  | other : Inbound

/-- Model of `OrderBookHandler.process_message` (src/orderbook.py:22-48): the
top-level dispatcher. Every exception raised inside is caught by the
`except` clauses, so the function always returns a state: the previous
one when the raise happened before any mutation, the partially updated
one when a price-change loop raised midway. An empty list raises
`IndexError` at `tempmsg[0]`, which is caught. -/
def process_message (st : HandlerState) (m : Inbound) (now : ℚ) : HandlerState :=
  match m with
  | .keepalive => st
  | .malformed => st
  | .other => st
  | .jlist es =>
    match es with
    | [] => st
    | d :: _ =>
      match process_full_book_message st d now with
      | .ok st' => st'
      | .error _ => st
  | .jobj d =>
    if d.event_type = some "book" then
      match process_full_book_message st d now with
      | .ok st' => st'
      | .error _ => st
    else if d.event_type = some "price_change" then
      (process_price_change_message st d now).1
    else
      st

/-! ### ParquetWriter (src/parquet.py) -/

/-- The writer's configuration (src/parquet.py:23-32): row-count flush
threshold, flush interval in seconds, and bounded queue capacity
(Python `queue.Queue(maxsize)`, where `maxsize ≤ 0` means unbounded). -/
structure WCfg where
  batch_size : Nat
  flush_interval : ℚ
  queue_maxsize : Nat
deriving Repr

/-- The writer's state, over an abstract row type `α`: the bounded
queue, the writer loop's local `buffer`, the rows committed to the file
so far (in commit order), the loop's `last_flush` clock, the `running`
flag, whether the underlying `pq.ParquetWriter` is open, and how many
footers have been written to the file. -/
structure WState (α : Type) where
  queue : List α
  buffer : List α
  file : List α
  lastFlush : ℚ
  running : Bool
  writerOpen : Bool
  footers : Nat
deriving Repr

/-- Python `queue.put_nowait(row)`: appends at the back, or raises
`queue.Full` (modelled by `none`) when the queue is bounded and full. -/
def put_nowait (cfg : WCfg) (q : List α) (r : α) : Option (List α) :=
  if 0 < cfg.queue_maxsize ∧ cfg.queue_maxsize ≤ q.length then none
  else some (q ++ [r])

/-- The queue manipulation of `ParquetWriter.enqueue`
(src/parquet.py:166-173): `put_nowait`, and on `queue.Full` drop the
oldest row (`get_nowait`) and retry the put. The `queue.Empty` branch
(a full queue that is simultaneously empty) is unreachable in this
sequential model; so is a `Full` on the retry, modelled by keeping the
dequeued queue as the then-uncaught exception would. -/
def enqueueQueue (cfg : WCfg) (q : List α) (r : α) : List α :=
  match put_nowait cfg q r with
  | some q' => q'
  | none =>
    match q with
    | [] => q
    | _ :: rest =>
      match put_nowait cfg rest r with
      | some q' => q'
      | none => rest

/-- Model of `ParquetWriter.enqueue` (src/parquet.py:162-173): a no-op once
`running` is false; otherwise apply the non-blocking drop-oldest queue
insertion. Only `self.queue` is touched. -/
def enqueue (cfg : WCfg) (s : WState α) (r : α) : WState α :=
  if s.running = false then s
  else { s with queue := enqueueQueue cfg s.queue r }

/-- Enqueue a list of rows one by one, in order. -/
def enqueueAll (cfg : WCfg) (s : WState α) (rs : List α) : WState α :=
  rs.foldl (enqueue cfg) s

/-- The `queue.get(timeout=0.1)` at the top of one `_writer_loop`
iteration (src/parquet.py:99-103): move the oldest queued row into the
buffer; on `queue.Empty` (empty queue) pass. -/
def dequeueStep (s : WState α) : WState α :=
  match s.queue with
  | [] => s
  | r :: rest => { s with queue := rest, buffer := s.buffer ++ [r] }

/-- The `should_flush` condition of `_writer_loop`
(src/parquet.py:107-110), evaluated after the dequeue at time `now`:
the buffer reached `batch_size`, or it is non-empty and
`flush_interval` has elapsed since `last_flush`. -/
def shouldFlush (cfg : WCfg) (s : WState α) (now : ℚ) : Bool :=
  decide (cfg.batch_size ≤ s.buffer.length) ||
    (!s.buffer.isEmpty && decide (cfg.flush_interval ≤ now - s.lastFlush))

/-- The `if should_flush` body (src/parquet.py:112-116): `_flush` the
buffer (append it to the file in order), clear it, reset `last_flush`. -/
def commitBatch (s : WState α) (now : ℚ) : WState α :=
  { s with file := s.file ++ s.buffer, buffer := [], lastFlush := now }

/-- One iteration of the `while` loop of `_writer_loop`
(src/parquet.py:98-116), with the `time.monotonic()` read supplied as
`now`. -/
def loopStep (cfg : WCfg) (s : WState α) (now : ℚ) : WState α :=
  let s₁ := dequeueStep s
  if shouldFlush cfg s₁ now then commitBatch s₁ now else s₁

/-- Several loop iterations, the `k`-th at time `times[k]` (times of an
execution are non-decreasing; no theorem below needs that). -/
def runSteps (cfg : WCfg) (s : WState α) (times : List ℚ) : WState α :=
  times.foldl (loopStep cfg) s

/-- Run of `n` loop iterations timed by the oracle `time`. -/
def drainSteps (cfg : WCfg) (time : Nat → ℚ) : Nat → WState α → WState α
  | 0, s => s
  | n + 1, s => drainSteps cfg time n (loopStep cfg s (time n))

/-- The final flush after the loop exits (src/parquet.py:118-122). -/
def finalFlush (s : WState α) : WState α :=
  if s.buffer.isEmpty then s else { s with file := s.file ++ s.buffer, buffer := [] }

/-- Model of `ParquetWriter._open_writer` (src/parquet.py:69-79): raises
`RuntimeError` when the underlying writer is already open; otherwise
opens it (no footer is written by opening). -/
def openWriter (s : WState α) : Except String (WState α) :=
  if s.writerOpen then .error "ParquetWriter already open"
  else .ok { s with writerOpen := true }

/-- Model of `ParquetWriter._close_writer` (src/parquet.py:81-84): closing an
open writer writes the file's footer (pyarrow writes it exactly on
`close`) and forgets the handle; closing again is a no-op. -/
def closeWriter (s : WState α) : WState α :=
  if s.writerOpen then { s with writerOpen := false, footers := s.footers + 1 }
  else s

/-- The tail of `_writer_loop` once `running` is false
(src/parquet.py:98-128): the `while` guard degenerates to
`not queue.empty()`, so each remaining iteration dequeues exactly one
row and the loop exits after `queue.length` iterations; then the final
flush runs and the `finally` block closes the writer. -/
def writerLoopDrain (cfg : WCfg) (time : Nat → ℚ) (s : WState α) : WState α :=
  closeWriter (finalFlush (drainSteps cfg time s.queue.length s))

/-- The state change performed by `ParquetWriter.shutdown`
(src/parquet.py:179-184) before joining the thread: clear `running`. -/
def shutdownSignal (s : WState α) : WState α := { s with running := false }

/-- The check after `self._thread.join(timeout=timeout)`
(src/parquet.py:186-189): raise `RuntimeError` exactly when the
background thread is still alive, i.e. did not terminate within the
timeout. -/
def shutdownJoinCheck (threadAlive : Bool) : Except String Unit :=
  if threadAlive then .error "Parquet writer did not shut down cleanly — data loss possible"
  else .ok ()

/-! ### Helper lemmas: order-book side updates -/

theorem prices_cons (l : Level) (ls : List Level) :
    prices (l :: ls) = l.price :: prices ls := rfl

theorem prices_append (xs ys : List Level) :
    prices (xs ++ ys) = prices xs ++ prices ys := by
  simp [prices]

theorem overwriteFirst_eq_none_iff (side : List Level) (price size : ℚ) :
    overwriteFirst side price size = none ↔ price ∉ prices side := by
  induction side with
  | nil => simp [overwriteFirst, prices]
  | cons l ls ih =>
    by_cases h : l.price = price
    · simp [overwriteFirst, h, prices_cons]
    · simp [overwriteFirst, h, prices_cons, Option.map_eq_none', ih, Ne.symm h]

theorem overwriteFirst_prices_eq {side side' : List Level} {price size : ℚ}
    (h : overwriteFirst side price size = some side') : prices side' = prices side := by
  induction side generalizing side' with
  | nil => simp [overwriteFirst] at h
  | cons l ls ih =>
    by_cases hl : l.price = price
    · simp [overwriteFirst, hl] at h
      subst h
      simp [prices_cons, hl]
    · simp [overwriteFirst, hl, Option.map_eq_some'] at h
      obtain ⟨ls', hls', rfl⟩ := h
      simp [prices_cons, ih hls']

theorem overwriteFirst_of_nodup {side : List Level} {price : ℚ} (size : ℚ)
    (hnd : (prices side).Nodup) (hp : price ∈ prices side) :
    overwriteFirst side price size =
      some (side.map fun l => if l.price = price then ⟨l.price, size⟩ else l) := by
  induction side with
  | nil => simp [prices] at hp
  | cons l ls ih =>
    rw [prices_cons] at hnd hp
    by_cases hl : l.price = price
    · have hnotin : ∀ x ∈ ls, x.price ≠ price := by
        intro x hx hxp
        apply (List.nodup_cons.mp hnd).1
        show l.price ∈ prices ls
        rw [hl, ← hxp]
        exact List.mem_map_of_mem (·.price) hx
      have hmap : (ls.map fun l' => if l'.price = price then (⟨l'.price, size⟩ : Level) else l') = ls := by
        have : (ls.map fun l' => if l'.price = price then (⟨l'.price, size⟩ : Level) else l')
            = ls.map id := List.map_congr_left (fun x hx => by simp [hnotin x hx])
        simpa using this
      simp [overwriteFirst, hl, hmap]
    · have hp' : price ∈ prices ls := by
        rcases List.mem_cons.mp hp with h | h
        · exact absurd h.symm hl
        · exact h
      simp [overwriteFirst, hl, ih (List.nodup_cons.mp hnd).2 hp']

theorem update_price_level_nodup (side : List Level) (price size : ℚ)
    (h : (prices side).Nodup) : (prices (update_price_level side price size)).Nodup := by
  unfold update_price_level
  split
  · exact h.sublist (List.Sublist.map _ (List.filter_sublist side))
  · split
    · next side' hside' => rw [overwriteFirst_prices_eq hside']; exact h
    · next hnone =>
      have hnotin : price ∉ prices side := (overwriteFirst_eq_none_iff side price size).mp hnone
      rw [prices_append, List.nodup_append]
      refine ⟨h, by simp [prices], fun a ha hb => ?_⟩
      have ha' : a = price := by simpa [prices] using hb
      exact hnotin (ha' ▸ ha)

/-! ### Claim theorems: order book -/

/-- C1: for every book state and full-snapshot message, if the
message's `asset_id` equals the instance's subscribed key, applying the
full snapshot replaces both the bid side and the ask side in their
entirety with the message's levels, discarding all prior levels
(regardless of the prior book, hence of any deltas that preceded it);
if the `asset_id` does not match, the book state is left unchanged. -/
theorem C1_full_snapshot_replaces (st : HandlerState) (d : MsgObj) (now : ℚ)
    (aid market : String) (bids asks : List Level)
    (haid : d.asset_id = some aid) (hmkt : d.market = some market)
    (hbids : d.bids = some bids) (hasks : d.asks = some asks) :
    (aid = st.subscribed_asset_id →
      process_full_book_message st d now =
        .ok ⟨st.subscribed_asset_id,
             some ⟨st.subscribed_asset_id, market, aid, now, bids, asks⟩⟩) ∧
    (aid ≠ st.subscribed_asset_id →
      process_full_book_message st d now = .ok st) := by
  constructor
  · intro h
    subst h
    simp [process_full_book_message, getKey, haid, hmkt, hbids, hasks,
          Bind.bind, Except.bind, pure, Except.pure]
  · intro h
    simp [process_full_book_message, getKey, haid, h,
          Bind.bind, Except.bind, pure, Except.pure]

/-- Witness for C1 at a concrete book and message, both branches. -/
theorem C1_full_snapshot_replaces_witness :
    process_full_book_message
        ⟨"k", some ⟨"k", "m0", "k", 0, [⟨1, 10⟩], [⟨2, 5⟩]⟩⟩
        { event_type := some "book", asset_id := some "k", market := some "m1",
          bids := some [⟨3, 7⟩], asks := some [⟨4, 8⟩] } 42 =
      .ok ⟨"k", some ⟨"k", "m1", "k", 42, [⟨3, 7⟩], [⟨4, 8⟩]⟩⟩ ∧
    process_full_book_message
        ⟨"k", some ⟨"k", "m0", "k", 0, [⟨1, 10⟩], [⟨2, 5⟩]⟩⟩
        { event_type := some "book", asset_id := some "z", market := some "m1",
          bids := some [⟨3, 7⟩], asks := some [⟨4, 8⟩] } 42 =
      .ok ⟨"k", some ⟨"k", "m0", "k", 0, [⟨1, 10⟩], [⟨2, 5⟩]⟩⟩ := by
  constructor
  · exact (C1_full_snapshot_replaces ⟨"k", some ⟨"k", "m0", "k", 0, [⟨1, 10⟩], [⟨2, 5⟩]⟩⟩
      { event_type := some "book", asset_id := some "k", market := some "m1",
        bids := some [⟨3, 7⟩], asks := some [⟨4, 8⟩] }
      42 "k" "m1" [⟨3, 7⟩] [⟨4, 8⟩] rfl rfl rfl rfl).1 rfl
  · exact (C1_full_snapshot_replaces ⟨"k", some ⟨"k", "m0", "k", 0, [⟨1, 10⟩], [⟨2, 5⟩]⟩⟩
      { event_type := some "book", asset_id := some "z", market := some "m1",
        bids := some [⟨3, 7⟩], asks := some [⟨4, 8⟩] }
      42 "z" "m1" [⟨3, 7⟩] [⟨4, 8⟩] rfl rfl rfl rfl).2 (by decide)

/-- C2: a size-0 change removes every level at that price (and is a
no-op when the price is absent); a non-zero change overwrites the
existing level's size in place when the price is present (under the
book's price-uniqueness invariant), and appends exactly one new level
when it is absent. -/
theorem C2_update_price_level_cases (side : List Level) (price size : ℚ) :
    (∀ l, l ∈ update_price_level side price 0 ↔ l ∈ side ∧ l.price ≠ price) ∧
    (price ∉ prices side → update_price_level side price 0 = side) ∧
    (size ≠ 0 → price ∉ prices side →
      update_price_level side price size = side ++ [⟨price, size⟩]) ∧
    (size ≠ 0 → price ∈ prices side → (prices side).Nodup →
      update_price_level side price size =
        side.map fun l => if l.price = price then ⟨l.price, size⟩ else l) := by
  refine ⟨?_, ?_, ?_, ?_⟩
  · intro l
    simp [update_price_level, List.mem_filter]
  · intro hout
    have : ∀ l ∈ side, l.price ≠ price := by
      intro l hl hlp
      exact hout (by rw [← hlp]; exact List.mem_map_of_mem (·.price) hl)
    simp only [update_price_level, if_pos rfl]
    exact List.filter_eq_self.mpr fun l hl => by simpa using this l hl
  · intro hsz hout
    have hnone : overwriteFirst side price size = none :=
      (overwriteFirst_eq_none_iff side price size).mpr hout
    simp [update_price_level, hsz, hnone]
  · intro hsz hin hnd
    simp [update_price_level, hsz, overwriteFirst_of_nodup size hnd hin]

/-- Witness for C2 at a concrete side, all four cases. -/
theorem C2_update_price_level_cases_witness :
    ((⟨1, 10⟩ : Level) ∈ update_price_level [⟨1, 10⟩, ⟨2, 5⟩] 1 0 ↔
      (⟨1, 10⟩ : Level) ∈ [(⟨1, 10⟩ : Level), ⟨2, 5⟩] ∧ (1 : ℚ) ≠ 1) ∧
    update_price_level [⟨1, 10⟩, ⟨2, 5⟩] 3 0 = [⟨1, 10⟩, ⟨2, 5⟩] ∧
    update_price_level [⟨1, 10⟩, ⟨2, 5⟩] 3 7 = [⟨1, 10⟩, ⟨2, 5⟩, ⟨3, 7⟩] ∧
    update_price_level [⟨1, 10⟩, ⟨2, 5⟩] 2 7 = [⟨1, 10⟩, ⟨2, 7⟩] := by
  have h := C2_update_price_level_cases [⟨1, 10⟩, ⟨2, 5⟩] 3 7
  have h2 := C2_update_price_level_cases [⟨1, 10⟩, ⟨2, 5⟩] 2 7
  have h1 := C2_update_price_level_cases [⟨1, 10⟩, ⟨2, 5⟩] 1 0
  refine ⟨h1.1 ⟨1, 10⟩, h.2.1 (by decide), h.2.2.1 (by norm_num) (by decide), ?_⟩
  rw [h2.2.2.2 (by norm_num) (by decide) (by decide)]
  decide

/-- C3: price-uniqueness of a book side is an invariant: starting from
a side whose prices are pairwise distinct, every sequence of
`update_price_level` applications (any prices and sizes) yields a side
whose prices are still pairwise distinct. -/
theorem C3_price_uniqueness_invariant (changes : List (ℚ × ℚ)) (side : List Level)
    (h : (prices side).Nodup) : (prices (applyDeltas side changes)).Nodup := by
  induction changes generalizing side with
  | nil => exact h
  | cons c cs ih =>
    exact ih (update_price_level side c.1 c.2) (update_price_level_nodup side c.1 c.2 h)

/-- Witness for C3 on a concrete delta sequence (insert, overwrite,
remove, re-insert). -/
theorem C3_price_uniqueness_invariant_witness :
    (prices (applyDeltas [⟨1, 10⟩, ⟨2, 5⟩] [(3, 7), (2, 9), (1, 0), (1, 4)])).Nodup :=
  C3_price_uniqueness_invariant [(3, 7), (2, 9), (1, 0), (1, 4)] [⟨1, 10⟩, ⟨2, 5⟩] (by decide)

/-! ### Helper lemmas: best bid / best ask -/

theorem foldl_max_spec (l : SLevel) (ls : List SLevel) :
    ls.foldl (fun acc x => if acc.price < x.price then x else acc) l ∈ l :: ls ∧
    ∀ y ∈ l :: ls,
      y.price ≤ (ls.foldl (fun acc x => if acc.price < x.price then x else acc) l).price := by
  induction ls generalizing l with
  | nil => simp
  | cons x xs ih =>
    have step : List.foldl (fun acc x => if acc.price < x.price then x else acc) l (x :: xs)
        = List.foldl (fun acc x => if acc.price < x.price then x else acc)
            (if l.price < x.price then x else l) xs := rfl
    obtain ⟨hmem, hle⟩ := ih (if l.price < x.price then x else l)
    constructor
    · rw [step]
      rcases List.mem_cons.mp hmem with h | h
      · rw [h]
        split
        · exact List.mem_cons_of_mem _ (List.mem_cons_self _ _)
        · exact List.mem_cons_self _ _
      · exact List.mem_cons_of_mem _ (List.mem_cons_of_mem _ h)
    · intro y hy
      rw [step]
      have hseed : (if l.price < x.price then x else l) ∈
          (if l.price < x.price then x else l) :: xs := List.mem_cons_self _ _
      have hseed_le := hle _ hseed
      rcases List.mem_cons.mp hy with h | h
      · subst h
        refine le_trans ?_ hseed_le
        split
        · next hlt => exact le_of_lt hlt
        · exact le_refl _
      · rcases List.mem_cons.mp h with h' | h'
        · subst h'
          refine le_trans ?_ hseed_le
          split
          · exact le_refl _
          · next hlt => exact le_of_not_lt hlt
        · exact hle y (List.mem_cons_of_mem _ h')

theorem foldl_min_spec (l : SLevel) (ls : List SLevel) :
    ls.foldl (fun acc x => if x.price < acc.price then x else acc) l ∈ l :: ls ∧
    ∀ y ∈ l :: ls,
      (ls.foldl (fun acc x => if x.price < acc.price then x else acc) l).price ≤ y.price := by
  induction ls generalizing l with
  | nil => simp
  | cons x xs ih =>
    have step : List.foldl (fun acc x => if x.price < acc.price then x else acc) l (x :: xs)
        = List.foldl (fun acc x => if x.price < acc.price then x else acc)
            (if x.price < l.price then x else l) xs := rfl
    obtain ⟨hmem, hle⟩ := ih (if x.price < l.price then x else l)
    constructor
    · rw [step]
      rcases List.mem_cons.mp hmem with h | h
      · rw [h]
        split
        · exact List.mem_cons_of_mem _ (List.mem_cons_self _ _)
        · exact List.mem_cons_self _ _
      · exact List.mem_cons_of_mem _ (List.mem_cons_of_mem _ h)
    · intro y hy
      rw [step]
      have hseed : (if x.price < l.price then x else l) ∈
          (if x.price < l.price then x else l) :: xs := List.mem_cons_self _ _
      have hseed_le := hle _ hseed
      rcases List.mem_cons.mp hy with h | h
      · subst h
        refine le_trans hseed_le ?_
        split
        · next hlt => exact le_of_lt hlt
        · exact le_refl _
      · rcases List.mem_cons.mp h with h' | h'
        · subst h'
          refine le_trans hseed_le ?_
          split
          · exact le_refl _
          · next hlt => exact le_of_not_lt hlt
        · exact hle y (List.mem_cons_of_mem _ h')

/-! ### Claim C4: best bid / best ask -/

/-- C4 counterexample: the claim fails on two counts. (i) `OB.bb`
compares the stored price strings lexicographically (there is no
`float()` in src/models.py:35), so on the bid side
`[{"price": "10.0"}, {"price": "9.5"}]` — reachable by two delta
inserts at float prices 10.0 and 9.5, which store exactly
`str(10.0) = "10.0"` and `str(9.5) = "9.5"` — it returns `"9.5"`
(`"10.0" < "9.5"` as strings), which is NOT the maximum-price level's
price: the level priced `"10.0"` is numerically greater.
(ii) On an empty side the query is the `ValueError` of Python
`max`/`min` on an empty sequence (modelled `none`), not a non-faulting
"not yet available" result. -/
theorem C4_best_quotes_counterexample :
    OBS.bb ⟨"t", "m", "a", [⟨"10.0", "10"⟩, ⟨"9.5", "5"⟩], []⟩ = some "9.5" ∧
    (⟨"10.0", "10"⟩ : SLevel) ∈
      (⟨"t", "m", "a", [⟨"10.0", "10"⟩, ⟨"9.5", "5"⟩], []⟩ : OBS).bids ∧
    decLt "9.5" "10.0" ∧
    OBS.bb ⟨"t", "m", "a", [], []⟩ = none ∧
    OBS.ba ⟨"t", "m", "a", [], []⟩ = none := by
  have hlt : ("10.0" : String) < "9.5" := by
    rw [String.lt_iff_toList_lt]
    decide
  refine ⟨?_, by decide, ⟨(95, 10), (100, 10), by decide, by decide, by decide⟩, rfl, rfl⟩
  show (maxByPrice [⟨"10.0", "10"⟩, ⟨"9.5", "5"⟩]).map (·.price) = some "9.5"
  simp only [maxByPrice, List.foldl]
  rw [if_pos hlt]
  rfl

/-- C4 amended: on a non-empty side the best-bid (best-ask) query
returns the stored price string of the first bid (ask) level whose
price string is greatest (least) in lexicographic string order — the
order Python's `max`/`min` apply to the raw strings, which coincides
with numeric order only when the stored decimals happen to be
string-order compatible; on an empty side the query raises a fault
(Python `ValueError` from `max`/`min` on an empty sequence, modelled
by `none`), which callers must treat as "best quote not yet
available". -/
theorem C4_best_quotes_amended (ob : OBS) :
    (ob.bids ≠ [] →
      ∃ l ∈ ob.bids, OBS.bb ob = some l.price ∧ ∀ y ∈ ob.bids, y.price ≤ l.price) ∧
    (ob.bids = [] → OBS.bb ob = none) ∧
    (ob.asks ≠ [] →
      ∃ l ∈ ob.asks, OBS.ba ob = some l.price ∧ ∀ y ∈ ob.asks, l.price ≤ y.price) ∧
    (ob.asks = [] → OBS.ba ob = none) := by
  refine ⟨?_, ?_, ?_, ?_⟩
  · intro hne
    cases hb : ob.bids with
    | nil => exact absurd hb hne
    | cons l ls =>
      obtain ⟨hmem, hle⟩ := foldl_max_spec l ls
      refine ⟨_, hmem, ?_, ?_⟩
      · simp [OBS.bb, maxByPrice, hb]
      · intro y hy
        exact hle y hy
  · intro hb
    simp [OBS.bb, maxByPrice, hb]
  · intro hne
    cases ha : ob.asks with
    | nil => exact absurd ha hne
    | cons l ls =>
      obtain ⟨hmem, hle⟩ := foldl_min_spec l ls
      refine ⟨_, hmem, ?_, ?_⟩
      · simp [OBS.ba, minByPrice, ha]
      · intro y hy
        exact hle y hy
  · intro ha
    simp [OBS.ba, minByPrice, ha]

/-- Witness for the amended C4 on a concrete string-priced book: both
the lexicographic-max characterisation and the counterexample book. -/
theorem C4_best_quotes_amended_witness :
    (∃ l ∈ [(⟨"10.0", "10"⟩ : SLevel), ⟨"9.5", "5"⟩],
      OBS.bb ⟨"t", "m", "a", [⟨"10.0", "10"⟩, ⟨"9.5", "5"⟩], [⟨"0.4", "1"⟩, ⟨"0.35", "1"⟩]⟩
          = some l.price ∧
      ∀ y ∈ [(⟨"10.0", "10"⟩ : SLevel), ⟨"9.5", "5"⟩], y.price ≤ l.price) ∧
    (∃ l ∈ [(⟨"0.4", "1"⟩ : SLevel), ⟨"0.35", "1"⟩],
      OBS.ba ⟨"t", "m", "a", [⟨"10.0", "10"⟩, ⟨"9.5", "5"⟩], [⟨"0.4", "1"⟩, ⟨"0.35", "1"⟩]⟩
          = some l.price ∧
      ∀ y ∈ [(⟨"0.4", "1"⟩ : SLevel), ⟨"0.35", "1"⟩], l.price ≤ y.price) :=
  ⟨(C4_best_quotes_amended
      ⟨"t", "m", "a", [⟨"10.0", "10"⟩, ⟨"9.5", "5"⟩], [⟨"0.4", "1"⟩, ⟨"0.35", "1"⟩]⟩).1
      (by decide),
   (C4_best_quotes_amended
      ⟨"t", "m", "a", [⟨"10.0", "10"⟩, ⟨"9.5", "5"⟩], [⟨"0.4", "1"⟩, ⟨"0.35", "1"⟩]⟩).2.2.1
      (by decide)⟩

/-! ### Claim C9: malformed / foreign messages never fault -/

theorem applyChanges_skip (st : HandlerState) (cs : List ChangeObj)
    (h : ∀ c ∈ cs, c.asset_id ≠ some st.subscribed_asset_id) :
    applyChanges st cs = (st, none) := by
  induction cs with
  | nil => rfl
  | cons c cs ih =>
    have hc : c.asset_id ≠ some st.subscribed_asset_id := h c (List.mem_cons_self c cs)
    simp [applyChanges, applyChange, hc]
    exact ih fun c' hc' => h c' (List.mem_cons_of_mem c hc')

/-- C9: processing any inbound frame returns normally with a
well-defined book state (the dispatcher catches every exception; in
this embedding `process_message` is a total function into
`HandlerState`). In particular: non-parseable text, empty/keepalive
text, non-list/non-dict JSON, an empty JSON list, and a dict with an
unknown (or missing) event discriminator all leave the state unchanged;
and a price-change message none of whose changes carries the subscribed
`asset_id` raises nothing out of the change loop and leaves both book
sides unchanged (only `last_update` may be refreshed). -/
theorem C9_robust_message_handling (st : HandlerState) (now : ℚ) :
    process_message st .malformed now = st ∧
    process_message st .keepalive now = st ∧
    process_message st .other now = st ∧
    process_message st (.jlist []) now = st ∧
    (∀ d : MsgObj, d.event_type ≠ some "book" → d.event_type ≠ some "price_change" →
      process_message st (.jobj d) now = st) ∧
    (∀ d : MsgObj, d.event_type = some "price_change" →
      (∀ c ∈ d.price_changes.getD [], c.asset_id ≠ some st.subscribed_asset_id) →
      (process_price_change_message st d now).2 = none ∧
      (process_message st (.jobj d) now).current_orderbook.map OB.bids
        = st.current_orderbook.map OB.bids ∧
      (process_message st (.jobj d) now).current_orderbook.map OB.asks
        = st.current_orderbook.map OB.asks ∧
      (process_message st (.jobj d) now).subscribed_asset_id = st.subscribed_asset_id) := by
  refine ⟨rfl, rfl, rfl, rfl, ?_, ?_⟩
  · intro d h1 h2
    simp [process_message, h1, h2]
  · intro d hev hskip
    have hac := applyChanges_skip st (d.price_changes.getD []) hskip
    refine ⟨?_, ?_, ?_, ?_⟩ <;>
      cases hob : st.current_orderbook <;>
        simp [process_message, process_price_change_message, hev, hac, hob]

/-- Witness for C9 on concrete malformed, unknown-discriminator and
foreign-delta messages. -/
theorem C9_robust_message_handling_witness :
    process_message ⟨"k", none⟩ .malformed 7 = ⟨"k", none⟩ ∧
    (process_message ⟨"k", some ⟨"k", "m", "k", 0, [⟨1, 10⟩], [⟨2, 5⟩]⟩⟩
        (.jobj { event_type := some "weird" }) 7
      = ⟨"k", some ⟨"k", "m", "k", 0, [⟨1, 10⟩], [⟨2, 5⟩]⟩⟩) ∧
    ((process_message ⟨"k", some ⟨"k", "m", "k", 0, [⟨1, 10⟩], [⟨2, 5⟩]⟩⟩
        (.jobj { event_type := some "price_change",
                 price_changes := some [{ asset_id := some "z", side := some "buy",
                                          price := some 1, size := some 0 }] }) 7
      ).current_orderbook.map OB.bids = some [⟨1, 10⟩]) := by
  have h1 := (C9_robust_message_handling ⟨"k", none⟩ 7).1
  have h2 := (C9_robust_message_handling ⟨"k", some ⟨"k", "m", "k", 0, [⟨1, 10⟩], [⟨2, 5⟩]⟩⟩ 7).2.2.2.2.1
      { event_type := some "weird" } (by decide) (by decide)
  have h3 := ((C9_robust_message_handling ⟨"k", some ⟨"k", "m", "k", 0, [⟨1, 10⟩], [⟨2, 5⟩]⟩⟩ 7).2.2.2.2.2
      { event_type := some "price_change",
        price_changes := some [{ asset_id := some "z", side := some "buy",
                                 price := some 1, size := some 0 }] }
      rfl (by decide)).2.1
  exact ⟨h1, h2, by rw [h3]; rfl⟩

/-! ### Helper lemmas: writer queue -/

theorem enqueue_not_running {α : Type} (cfg : WCfg) (s : WState α) (r : α)
    (h : s.running = false) : enqueue cfg s r = s := by
  simp [enqueue, h]

theorem enqueue_running {α : Type} (cfg : WCfg) (s : WState α) (r : α)
    (h : s.running = true) :
    enqueue cfg s r = { s with queue := enqueueQueue cfg s.queue r } := by
  simp [enqueue, h]

theorem enqueueQueue_eq {α : Type} (cfg : WCfg) (q : List α) (r : α)
    (hm : 0 < cfg.queue_maxsize) (hlen : q.length ≤ cfg.queue_maxsize) :
    enqueueQueue cfg q r =
      if q.length < cfg.queue_maxsize then q ++ [r] else q.drop 1 ++ [r] := by
  by_cases hlt : q.length < cfg.queue_maxsize
  · have h : ¬(0 < cfg.queue_maxsize ∧ cfg.queue_maxsize ≤ q.length) := by omega
    simp [enqueueQueue, put_nowait, h, hlt]
  · have h : 0 < cfg.queue_maxsize ∧ cfg.queue_maxsize ≤ q.length := ⟨hm, by omega⟩
    cases q with
    | nil =>
      exfalso
      simp at hlt
      omega
    | cons a rest =>
      have hge : cfg.queue_maxsize ≤ rest.length + 1 := by
        simp at hlt
        omega
      have hrest : rest.length < cfg.queue_maxsize := by
        simp at hlen
        omega
      simp [enqueueQueue, put_nowait, hm, hge, hlt, Nat.not_le.mpr hrest]
      rw [if_neg (by omega)]

theorem drop_one_append {α : Type} (q t : List α) (j : Nat) (h : 1 ≤ q.length) :
    (q.drop 1 ++ t).drop j = (q ++ t).drop (1 + j) := by
  cases q with
  | nil => simp at h
  | cons a q' =>
    rw [show (1 : Nat) + j = j + 1 from by omega]
    simp [List.drop_succ_cons]

theorem enqueueAll_spec {α : Type} (cfg : WCfg) (hm : 0 < cfg.queue_maxsize) :
    ∀ (rs : List α) (s : WState α), s.running = true →
      s.queue.length ≤ cfg.queue_maxsize →
      enqueueAll cfg s rs =
        { s with queue :=
            (s.queue ++ rs).drop (s.queue.length + rs.length - cfg.queue_maxsize) } := by
  intro rs
  induction rs with
  | nil =>
    intro s hrun hlen
    simp only [enqueueAll, List.foldl_nil, List.append_nil, List.length_nil, Nat.add_zero]
    rw [show s.queue.length - cfg.queue_maxsize = 0 from by omega, List.drop_zero]
  | cons r rs ih =>
    intro s hrun hlen
    rw [show enqueueAll cfg s (r :: rs) = enqueueAll cfg (enqueue cfg s r) rs from rfl,
        enqueue_running cfg s r hrun, enqueueQueue_eq cfg s.queue r hm hlen]
    by_cases hlt : s.queue.length < cfg.queue_maxsize
    · rw [if_pos hlt]
      rw [ih { s with queue := s.queue ++ [r] } hrun
        (by
          show (s.queue ++ [r]).length ≤ cfg.queue_maxsize
          rw [List.length_append, List.length_singleton]
          omega)]
      have hq : ((s.queue ++ [r]) ++ rs).drop
            ((s.queue ++ [r]).length + rs.length - cfg.queue_maxsize)
          = (s.queue ++ r :: rs).drop
            (s.queue.length + (r :: rs).length - cfg.queue_maxsize) := by
        rw [List.append_assoc, List.singleton_append]
        congr 1
        rw [List.length_append, List.length_singleton, List.length_cons]
        omega
      rw [hq]
    · rw [if_neg hlt]
      have hEq : s.queue.length = cfg.queue_maxsize := by omega
      have hpos : 1 ≤ s.queue.length := by omega
      rw [ih { s with queue := s.queue.drop 1 ++ [r] } hrun
        (by
          show (s.queue.drop 1 ++ [r]).length ≤ cfg.queue_maxsize
          rw [List.length_append, List.length_drop, List.length_singleton]
          omega)]
      have hq : ((s.queue.drop 1 ++ [r]) ++ rs).drop
            ((s.queue.drop 1 ++ [r]).length + rs.length - cfg.queue_maxsize)
          = (s.queue ++ r :: rs).drop
            (s.queue.length + (r :: rs).length - cfg.queue_maxsize) := by
        have hl1 : (s.queue.drop 1 ++ [r]).length = cfg.queue_maxsize := by
          rw [List.length_append, List.length_drop, List.length_singleton]
          omega
        rw [hl1, Nat.add_sub_cancel_left, List.append_assoc,
            drop_one_append s.queue ([r] ++ rs) rs.length hpos, List.singleton_append]
        congr 1
        rw [List.length_cons]
        omega
      rw [hq]

/-! ### Helper lemmas: writer loop -/

theorem dequeueStep_queue {α : Type} (s : WState α) :
    (dequeueStep s).queue = s.queue.drop 1 := by
  unfold dequeueStep
  split
  · next h => rw [h]; rfl
  · next r rest h => rw [h]; rfl

theorem dequeueStep_file {α : Type} (s : WState α) : (dequeueStep s).file = s.file := by
  unfold dequeueStep
  split <;> rfl

theorem dequeueStep_lastFlush {α : Type} (s : WState α) :
    (dequeueStep s).lastFlush = s.lastFlush := by
  unfold dequeueStep
  split <;> rfl

theorem dequeueStep_running {α : Type} (s : WState α) :
    (dequeueStep s).running = s.running := by
  unfold dequeueStep
  split <;> rfl

theorem dequeueStep_writerOpen {α : Type} (s : WState α) :
    (dequeueStep s).writerOpen = s.writerOpen := by
  unfold dequeueStep
  split <;> rfl

theorem dequeueStep_footers {α : Type} (s : WState α) :
    (dequeueStep s).footers = s.footers := by
  unfold dequeueStep
  split <;> rfl

theorem dequeueStep_flow {α : Type} (s : WState α) :
    (dequeueStep s).buffer ++ (dequeueStep s).queue = s.buffer ++ s.queue := by
  unfold dequeueStep
  split
  · rfl
  · next r rest h => rw [h]; simp

theorem loopStep_cases {α : Type} (cfg : WCfg) (s : WState α) (now : ℚ) :
    loopStep cfg s now =
      if shouldFlush cfg (dequeueStep s) now then commitBatch (dequeueStep s) now
      else dequeueStep s := rfl

theorem loopStep_queue {α : Type} (cfg : WCfg) (s : WState α) (now : ℚ) :
    (loopStep cfg s now).queue = s.queue.drop 1 := by
  rw [loopStep_cases]
  split
  · exact dequeueStep_queue s
  · exact dequeueStep_queue s

theorem loopStep_flow {α : Type} (cfg : WCfg) (s : WState α) (now : ℚ) :
    (loopStep cfg s now).file ++ (loopStep cfg s now).buffer ++ (loopStep cfg s now).queue
      = s.file ++ s.buffer ++ s.queue := by
  have base : (dequeueStep s).file ++ ((dequeueStep s).buffer ++ (dequeueStep s).queue)
      = s.file ++ (s.buffer ++ s.queue) := by
    rw [dequeueStep_file, dequeueStep_flow]
  rw [loopStep_cases]
  split
  · simp only [commitBatch, List.append_nil]
    rw [List.append_assoc, base, ← List.append_assoc]
  · rw [List.append_assoc, base, ← List.append_assoc]

theorem loopStep_writerOpen {α : Type} (cfg : WCfg) (s : WState α) (now : ℚ) :
    (loopStep cfg s now).writerOpen = s.writerOpen := by
  rw [loopStep_cases]
  split
  · exact dequeueStep_writerOpen s
  · exact dequeueStep_writerOpen s

theorem loopStep_footers {α : Type} (cfg : WCfg) (s : WState α) (now : ℚ) :
    (loopStep cfg s now).footers = s.footers := by
  rw [loopStep_cases]
  split
  · exact dequeueStep_footers s
  · exact dequeueStep_footers s

theorem loopStep_running {α : Type} (cfg : WCfg) (s : WState α) (now : ℚ) :
    (loopStep cfg s now).running = s.running := by
  rw [loopStep_cases]
  split
  · exact dequeueStep_running s
  · exact dequeueStep_running s

theorem drainSteps_queue {α : Type} (cfg : WCfg) (time : Nat → ℚ) :
    ∀ (n : Nat) (s : WState α), (drainSteps cfg time n s).queue = s.queue.drop n := by
  intro n
  induction n with
  | zero => intro s; simp [drainSteps]
  | succ n ih =>
    intro s
    rw [show drainSteps cfg time (n + 1) s
        = drainSteps cfg time n (loopStep cfg s (time n)) from rfl]
    rw [ih, loopStep_queue]
    rw [List.drop_drop, Nat.add_comm 1 n]

theorem drainSteps_flow {α : Type} (cfg : WCfg) (time : Nat → ℚ) :
    ∀ (n : Nat) (s : WState α),
      (drainSteps cfg time n s).file ++ (drainSteps cfg time n s).buffer
          ++ (drainSteps cfg time n s).queue
        = s.file ++ s.buffer ++ s.queue := by
  intro n
  induction n with
  | zero => intro s; rfl
  | succ n ih =>
    intro s
    rw [show drainSteps cfg time (n + 1) s
        = drainSteps cfg time n (loopStep cfg s (time n)) from rfl]
    rw [ih, loopStep_flow]

theorem drainSteps_writerOpen {α : Type} (cfg : WCfg) (time : Nat → ℚ) :
    ∀ (n : Nat) (s : WState α),
      (drainSteps cfg time n s).writerOpen = s.writerOpen := by
  intro n
  induction n with
  | zero => intro s; rfl
  | succ n ih =>
    intro s
    rw [show drainSteps cfg time (n + 1) s
        = drainSteps cfg time n (loopStep cfg s (time n)) from rfl]
    rw [ih, loopStep_writerOpen]

theorem drainSteps_footers {α : Type} (cfg : WCfg) (time : Nat → ℚ) :
    ∀ (n : Nat) (s : WState α),
      (drainSteps cfg time n s).footers = s.footers := by
  intro n
  induction n with
  | zero => intro s; rfl
  | succ n ih =>
    intro s
    rw [show drainSteps cfg time (n + 1) s
        = drainSteps cfg time n (loopStep cfg s (time n)) from rfl]
    rw [ih, loopStep_footers]

theorem drainSteps_running {α : Type} (cfg : WCfg) (time : Nat → ℚ) :
    ∀ (n : Nat) (s : WState α),
      (drainSteps cfg time n s).running = s.running := by
  intro n
  induction n with
  | zero => intro s; rfl
  | succ n ih =>
    intro s
    rw [show drainSteps cfg time (n + 1) s
        = drainSteps cfg time n (loopStep cfg s (time n)) from rfl]
    rw [ih, loopStep_running]

theorem finalFlush_file {α : Type} (s : WState α) :
    (finalFlush s).file = s.file ++ s.buffer := by
  unfold finalFlush
  split
  · next h =>
    rw [List.isEmpty_iff.mp h]
    simp
  · rfl

theorem finalFlush_buffer {α : Type} (s : WState α) : (finalFlush s).buffer = [] := by
  unfold finalFlush
  split
  · next h => exact List.isEmpty_iff.mp h
  · rfl

theorem finalFlush_queue {α : Type} (s : WState α) : (finalFlush s).queue = s.queue := by
  unfold finalFlush
  split <;> rfl

theorem finalFlush_writerOpen {α : Type} (s : WState α) :
    (finalFlush s).writerOpen = s.writerOpen := by
  unfold finalFlush
  split <;> rfl

theorem finalFlush_footers {α : Type} (s : WState α) :
    (finalFlush s).footers = s.footers := by
  unfold finalFlush
  split <;> rfl

theorem finalFlush_running {α : Type} (s : WState α) :
    (finalFlush s).running = s.running := by
  unfold finalFlush
  split <;> rfl

theorem closeWriter_of_open {α : Type} (s : WState α) (h : s.writerOpen = true) :
    closeWriter s = { s with writerOpen := false, footers := s.footers + 1 } := by
  simp [closeWriter, h]

theorem writerLoopDrain_spec {α : Type} (cfg : WCfg) (time : Nat → ℚ) (s : WState α)
    (hw : s.writerOpen = true) :
    (writerLoopDrain cfg time s).file = s.file ++ s.buffer ++ s.queue ∧
    (writerLoopDrain cfg time s).buffer = [] ∧
    (writerLoopDrain cfg time s).queue = [] ∧
    (writerLoopDrain cfg time s).writerOpen = false ∧
    (writerLoopDrain cfg time s).footers = s.footers + 1 ∧
    (writerLoopDrain cfg time s).running = s.running := by
  have htq : (drainSteps cfg time s.queue.length s).queue = [] := by
    rw [drainSteps_queue, List.drop_length]
  have hflow := drainSteps_flow cfg time s.queue.length s
  rw [htq, List.append_nil] at hflow
  have hwo : (finalFlush (drainSteps cfg time s.queue.length s)).writerOpen = true := by
    rw [finalFlush_writerOpen, drainSteps_writerOpen]
    exact hw
  unfold writerLoopDrain
  rw [closeWriter_of_open _ hwo]
  refine ⟨?_, ?_, ?_, rfl, ?_, ?_⟩
  · show (finalFlush (drainSteps cfg time s.queue.length s)).file = _
    rw [finalFlush_file, hflow]
  · exact finalFlush_buffer _
  · show (finalFlush (drainSteps cfg time s.queue.length s)).queue = _
    rw [finalFlush_queue, htq]
  · show (finalFlush (drainSteps cfg time s.queue.length s)).footers + 1 = _
    rw [finalFlush_footers, drainSteps_footers]
  · show (finalFlush (drainSteps cfg time s.queue.length s)).running = _
    rw [finalFlush_running, drainSteps_running]

/-! ### Claim theorems: storage writer -/

theorem shouldFlush_iff {α : Type} (cfg : WCfg) (s : WState α) (now : ℚ) :
    shouldFlush cfg s now = true ↔
      (cfg.batch_size ≤ s.buffer.length ∨
        (s.buffer ≠ [] ∧ cfg.flush_interval ≤ now - s.lastFlush)) := by
  simp [shouldFlush]

/-- C5: `enqueue` never blocks (it is a total state transformation that
respects the queue bound); on a full queue the oldest queued row is
evicted to make room for the new one; enqueueing `rs` into an empty
bounded queue leaves exactly the most recent `min |rs| maxsize` rows,
in enqueue order (a suffix of `rs`); and draining commits exactly those
surviving rows to the file in FIFO order — in particular all of `rs`,
in order, when nothing was dropped. -/
theorem C5_enqueue_fifo_backpressure {α : Type} (cfg : WCfg) (hm : 0 < cfg.queue_maxsize) :
    (∀ (s : WState α) (r : α), s.running = true →
      s.queue.length = cfg.queue_maxsize →
      (enqueue cfg s r).queue = s.queue.drop 1 ++ [r]) ∧
    (∀ (s : WState α) (r : α), s.queue.length ≤ cfg.queue_maxsize →
      (enqueue cfg s r).queue.length ≤ cfg.queue_maxsize) ∧
    (∀ (s : WState α) (rs : List α), s.running = true → s.queue = [] →
      (enqueueAll cfg s rs).queue = rs.drop (rs.length - cfg.queue_maxsize)) ∧
    (∀ (s : WState α) (rs : List α) (time : Nat → ℚ), s.running = true → s.queue = [] →
      s.buffer = [] → s.file = [] → s.writerOpen = true →
      (writerLoopDrain cfg time (shutdownSignal (enqueueAll cfg s rs))).file
          = rs.drop (rs.length - cfg.queue_maxsize) ∧
      (rs.length ≤ cfg.queue_maxsize →
        (writerLoopDrain cfg time (shutdownSignal (enqueueAll cfg s rs))).file = rs)) := by
  have hqueue : ∀ (s : WState α) (rs : List α), s.running = true → s.queue = [] →
      (enqueueAll cfg s rs).queue = rs.drop (rs.length - cfg.queue_maxsize) := by
    intro s rs hrun hq
    have h1 := enqueueAll_spec cfg hm rs s hrun (by rw [hq]; simp)
    rw [h1, hq]
    simp
  refine ⟨?_, ?_, hqueue, ?_⟩
  · intro s r hrun hfull
    rw [enqueue_running cfg s r hrun]
    show enqueueQueue cfg s.queue r = _
    rw [enqueueQueue_eq cfg s.queue r hm (le_of_eq hfull), if_neg (by omega)]
  · intro s r hlen
    by_cases hrun : s.running = true
    · rw [enqueue_running cfg s r hrun]
      show (enqueueQueue cfg s.queue r).length ≤ cfg.queue_maxsize
      rw [enqueueQueue_eq cfg s.queue r hm hlen]
      split
      · next h => rw [List.length_append, List.length_singleton]; omega
      · rw [List.length_append, List.length_drop, List.length_singleton]; omega
    · rw [enqueue_not_running cfg s r (by simpa using hrun)]
      exact hlen
  · intro s rs time hrun hq hbuf hfile hw
    have h1 := enqueueAll_spec cfg hm rs s hrun (by rw [hq]; simp)
    have hw' : (shutdownSignal (enqueueAll cfg s rs)).writerOpen = true := by
      rw [h1]
      exact hw
    obtain ⟨hf, -, -, -, -, -⟩ := writerLoopDrain_spec cfg time _ hw'
    have hfval : (writerLoopDrain cfg time (shutdownSignal (enqueueAll cfg s rs))).file
        = rs.drop (rs.length - cfg.queue_maxsize) := by
      rw [hf, h1]
      show s.file ++ s.buffer ++ (s.queue ++ rs).drop _ = _
      rw [hfile, hbuf, hq]
      simp
    refine ⟨hfval, fun hle => ?_⟩
    rw [hfval, show rs.length - cfg.queue_maxsize = 0 from by omega, List.drop_zero]

/-- Witness for C5: maxsize 3, five rows enqueued — the queue keeps the
last three in order and the drain commits exactly them. -/
theorem C5_enqueue_fifo_backpressure_witness :
    (enqueueAll ⟨10, 5, 3⟩ (⟨[], [], [], 0, true, true, 0⟩ : WState Nat)
        [1, 2, 3, 4, 5]).queue = [3, 4, 5] ∧
    (writerLoopDrain ⟨10, 5, 3⟩ (fun _ => 0) (shutdownSignal (enqueueAll ⟨10, 5, 3⟩
        (⟨[], [], [], 0, true, true, 0⟩ : WState Nat)
        [1, 2, 3, 4, 5]))).file = [3, 4, 5] := by
  have h := C5_enqueue_fifo_backpressure (α := Nat) ⟨10, 5, 3⟩ (by norm_num)
  constructor
  · rw [h.2.2.1 ⟨[], [], [], 0, true, true, 0⟩ [1, 2, 3, 4, 5] rfl rfl]
    rfl
  · rw [(h.2.2.2 ⟨[], [], [], 0, true, true, 0⟩ [1, 2, 3, 4, 5]
        (fun _ => 0) rfl rfl rfl rfl rfl).1]
    rfl

/-- C6: one iteration of the writer loop commits exactly when the
post-dequeue batch reaches the row-count threshold or the flush
interval has elapsed since the last commit (whichever holds first); a
commit appends the batch to the file in order, clears the batch and
resets the interval clock; a non-commit changes neither file nor clock.
Scenario B: 3 rows with threshold 10 and interval 5 are not committed
while the interval is open and are committed, exactly and in order,
once it elapses. -/
theorem C6_batch_commit_policy {α : Type} (cfg : WCfg) (s : WState α) (now : ℚ)
    (hb : 0 < cfg.batch_size) :
    ((loopStep cfg s now).file ≠ s.file ↔
      (cfg.batch_size ≤ (dequeueStep s).buffer.length ∨
        ((dequeueStep s).buffer ≠ [] ∧ cfg.flush_interval ≤ now - s.lastFlush))) ∧
    (shouldFlush cfg (dequeueStep s) now = true →
      (loopStep cfg s now).file = s.file ++ (dequeueStep s).buffer ∧
      (loopStep cfg s now).buffer = [] ∧
      (loopStep cfg s now).lastFlush = now) ∧
    (shouldFlush cfg (dequeueStep s) now = false →
      (loopStep cfg s now).file = s.file ∧
      (loopStep cfg s now).buffer = (dequeueStep s).buffer ∧
      (loopStep cfg s now).lastFlush = s.lastFlush) ∧
    (runSteps ⟨10, 5, 500000⟩ (⟨[1, 2, 3], [], [], 0, true, true, 0⟩ : WState Nat)
        [0, 0, 0]).file = [] ∧
    (runSteps ⟨10, 5, 500000⟩ (⟨[1, 2, 3], [], [], 0, true, true, 0⟩ : WState Nat)
        [0, 0, 0, 5]).file = [1, 2, 3] ∧
    (runSteps ⟨10, 5, 500000⟩ (⟨[1, 2, 3], [], [], 0, true, true, 0⟩ : WState Nat)
        [0, 0, 0, 5]).buffer = [] := by
  have hcommit : shouldFlush cfg (dequeueStep s) now = true →
      (loopStep cfg s now).file = s.file ++ (dequeueStep s).buffer ∧
      (loopStep cfg s now).buffer = [] ∧
      (loopStep cfg s now).lastFlush = now := by
    intro hsf
    rw [loopStep_cases, if_pos hsf]
    refine ⟨?_, rfl, rfl⟩
    show (dequeueStep s).file ++ (dequeueStep s).buffer = _
    rw [dequeueStep_file]
  have hskip : shouldFlush cfg (dequeueStep s) now = false →
      (loopStep cfg s now).file = s.file ∧
      (loopStep cfg s now).buffer = (dequeueStep s).buffer ∧
      (loopStep cfg s now).lastFlush = s.lastFlush := by
    intro hsf
    rw [loopStep_cases, if_neg (by simp [hsf])]
    exact ⟨dequeueStep_file s, rfl, dequeueStep_lastFlush s⟩
  refine ⟨?_, hcommit, hskip,
    by norm_num [runSteps, loopStep, dequeueStep, commitBatch, shouldFlush],
    by norm_num [runSteps, loopStep, dequeueStep, commitBatch, shouldFlush],
    by norm_num [runSteps, loopStep, dequeueStep, commitBatch, shouldFlush]⟩
  by_cases hsf : shouldFlush cfg (dequeueStep s) now = true
  · have hrhs := (shouldFlush_iff cfg (dequeueStep s) now).mp hsf
    rw [dequeueStep_lastFlush] at hrhs
    have hbne : (dequeueStep s).buffer ≠ [] := by
      rcases hrhs with h | h
      · exact List.ne_nil_of_length_pos (by omega)
      · exact h.1
    have hfe := (hcommit hsf).1
    refine iff_of_true ?_ hrhs
    rw [hfe]
    intro heq
    have := congrArg List.length heq
    rw [List.length_append] at this
    exact hbne (List.eq_nil_of_length_eq_zero (by omega))
  · have hsf' : shouldFlush cfg (dequeueStep s) now = false := by
      simpa using hsf
    have hrhs : ¬(cfg.batch_size ≤ (dequeueStep s).buffer.length ∨
        ((dequeueStep s).buffer ≠ [] ∧ cfg.flush_interval ≤ now - s.lastFlush)) := by
      rw [← dequeueStep_lastFlush (s := s)]
      intro hcontra
      exact hsf ((shouldFlush_iff cfg (dequeueStep s) now).mpr hcontra)
    refine iff_of_false ?_ hrhs
    rw [(hskip hsf').1]
    simp

/-- Witness for C6: Scenario B evaluated through the theorem at the
concrete configuration (threshold 10, interval 5). -/
theorem C6_batch_commit_policy_witness :
    (runSteps ⟨10, 5, 500000⟩ (⟨[1, 2, 3], [], [], 0, true, true, 0⟩ : WState Nat)
        [0, 0, 0, 5]).file = [1, 2, 3] :=
  (C6_batch_commit_policy (α := Nat) ⟨10, 5, 500000⟩
    ⟨[1, 2, 3], [], [], 0, true, true, 0⟩ 0 (by norm_num)).2.2.2.2.1

/-- C7 (code bug): the per-file guarantee fails. The only guard in the
code is per instance — `_open_writer` (src/parquet.py:69-71) raises
`RuntimeError` exactly when THIS object's `_writer` is already set
(first conjunct). `ParquetWriter` objects share no state keyed by the
destination path, so a second instance constructed on the same
filename starts with its own `_writer = None` and its `_open_writer`
proceeds with no error (second conjunct) even while the first
instance still holds the file open — `pq.ParquetWriter` then simply
reopens (truncates) the path. The claimed "attempting to open a second
writer on a file already bound to an open writer fails", which the
class docstring also asserts ("Exactly one ParquetWriter per file",
src/parquet.py:17-21), is enforced nowhere in the code. -/
theorem C7_second_instance_open_proceeds :
    (∃ e, openWriter (⟨[], [], [], 0, true, true, 0⟩ : WState Nat) = Except.error e) ∧
    openWriter (⟨[], [], [], 0, true, false, 0⟩ : WState Nat)
      = Except.ok (⟨[], [], [], 0, true, true, 0⟩ : WState Nat) :=
  ⟨⟨"ParquetWriter already open", rfl⟩, rfl⟩

/-- C8: after `shutdown` signals the loop (running := false), no new
row is accepted; the loop drains everything already queued or buffered
into the file (final forced commit, FIFO order preserved), the footer
is written exactly once and the writer closed; and the post-join check
raises `RuntimeError` if and only if the background thread is still
alive after the timeout. -/
theorem C8_shutdown_drains_or_fails_loudly {α : Type} (cfg : WCfg) (time : Nat → ℚ)
    (s : WState α) (hw : s.writerOpen = true) :
    (∀ r : α, enqueue cfg (shutdownSignal s) r = shutdownSignal s) ∧
    (writerLoopDrain cfg time (shutdownSignal s)).file = s.file ++ s.buffer ++ s.queue ∧
    (writerLoopDrain cfg time (shutdownSignal s)).buffer = [] ∧
    (writerLoopDrain cfg time (shutdownSignal s)).queue = [] ∧
    (writerLoopDrain cfg time (shutdownSignal s)).writerOpen = false ∧
    (writerLoopDrain cfg time (shutdownSignal s)).footers = s.footers + 1 ∧
    (∀ alive : Bool, (∃ e, shutdownJoinCheck alive = Except.error e) ↔ alive = true) := by
  have hw' : (shutdownSignal s).writerOpen = true := hw
  obtain ⟨hf, hb, hq, hwo, hft, -⟩ := writerLoopDrain_spec cfg time (shutdownSignal s) hw'
  refine ⟨fun r => enqueue_not_running cfg _ r rfl, hf, hb, hq, hwo, hft, ?_⟩
  intro alive
  cases alive <;> simp [shutdownJoinCheck]

/-- Witness for C8 at a concrete writer state: 2 queued and 3 buffered
rows are all committed after the already-committed prefix, in order. -/
theorem C8_shutdown_drains_or_fails_loudly_witness :
    (writerLoopDrain ⟨10, 5, 3⟩ (fun _ => 0) (shutdownSignal
        (⟨[4, 5], [1, 2, 3], [9], 0, true, true, 0⟩ : WState Nat))).file
      = [9, 1, 2, 3, 4, 5] ∧
    (∃ e, shutdownJoinCheck true = Except.error e) := by
  have h := C8_shutdown_drains_or_fails_loudly ⟨10, 5, 3⟩ (fun _ => 0)
    (⟨[4, 5], [1, 2, 3], [9], 0, true, true, 0⟩ : WState Nat) rfl
  exact ⟨by rw [h.2.1]; rfl, (h.2.2.2.2.2.2 true).mpr rfl⟩

/-- C10: once shutdown has been initiated (`running = false`),
`enqueue` returns normally and leaves the whole writer state — queue
included — unchanged: the row is silently discarded, neither queued
for writing nor reported as an error. -/
theorem C10_enqueue_after_shutdown_discards {α : Type} (cfg : WCfg) (s : WState α)
    (r : α) (h : s.running = false) : enqueue cfg s r = s :=
  enqueue_not_running cfg s r h

/-- Witness for C10 at a concrete stopped writer. -/
theorem C10_enqueue_after_shutdown_discards_witness :
    enqueue ⟨10, 5, 3⟩ (⟨[1, 2], [], [], 0, false, true, 0⟩ : WState Nat) 7
      = ⟨[1, 2], [], [], 0, false, true, 0⟩ :=
  C10_enqueue_after_shutdown_discards ⟨10, 5, 3⟩ _ 7 rfl

end PolyStream
